import Mathlib

/-!
Shallow embedding of `scripts/fetch_sth_realized_price.py`.

The script is a linear ETL pipeline: fetch CSV text from one of two URLs,
normalize quoting/escaping, parse CSV, resolve date/price/metric columns
case-insensitively, parse dates (dropping rows whose date does not parse),
sort ascending by date, coerce numerics (failures become null), compute a
200-row trailing moving average over the price column, and write a JSON
array of records.

Machine reals are modelled by `ℚ` (the script only adds, and divides by
200); Python/pandas library functions used by the script
(`str.strip`, `str.replace`, `pd.read_csv`, `pd.to_datetime`,
`pd.to_numeric`, `rolling(200, min_periods=200).mean()`,
`sort_values`) are modelled by executable Lean functions whose relevant
behavior is reproduced; simplifications are noted at each definition.
-/

namespace STH

attribute [local semireducible] Rat.add Rat.mul Rat.inv Rat.sub

/-- Python whitespace characters, as used by `str.strip()`. -/
def pyWs (c : Char) : Bool :=
  c == ' ' || c == '\t' || c == '\n' || c == '\r' || c == '\x0b' || c == '\x0c'

/-- Strip `pyWs` characters from both ends of a character list. -/
def stripChars (cs : List Char) : List Char :=
  ((cs.dropWhile pyWs).reverse.dropWhile pyWs).reverse

/-- Model of Python `str.strip()`. -/
def pyStrip (s : String) : String :=
  String.mk (stripChars s.toList)

/-- Model of Python `txt.replace("\\" ++ e, r)` for a two-character
pattern backslash-`e` replaced by the single character `r`: a single
left-to-right scan replacing non-overlapping occurrences. -/
def unescOne (e r : Char) : List Char → List Char
  | [] => []
  | [c] => [c]
  | '\\' :: c :: rest =>
    if c == e then r :: unescOne e r rest
    else '\\' :: unescOne e r (c :: rest)
  | c :: rest => c :: unescOne e r rest

/-- Model of `txt.replace("\\n", "\n").replace("\\r", "\r")`: the script's two
sequential replacements (first all `\n` escapes, then all `\r` escapes). -/
def unescNR (cs : List Char) : List Char :=
  unescOne 'r' '\r' (unescOne 'n' '\n' cs)

/-- The quote-stripping step of `_clean_csv_text`: if the text starts and
ends with `"` (or starts and ends with `\x27`), remove the first and last
character (`txt[1:-1]`; on a one-character quote this yields the empty
string, exactly as in Python). -/
def stripOuterQuotes (cs : List Char) : List Char :=
  let f := (cs.head?).getD ' '
  let l := (cs.getLast?).getD ' '
  if (f == '"' && l == '"') || (f == '\x27' && l == '\x27') then
    (cs.drop 1).dropLast
  else cs

/-- Model of `_clean_csv_text` from the script: strip, maybe drop an outer quote
pair, unescape literal `\n` and `\r` sequences, strip again. -/
def cleanCsvText (raw : String) : String :=
  let txt := stripChars raw.toList
  if txt.isEmpty then ""
  else String.mk (stripChars (unescNR (stripOuterQuotes txt)))

/-- Split a character list on a separator character (keeping empty
segments, like Python `str.split`). -/
def splitOnChar (sep : Char) : List Char → List (List Char)
  | [] => [[]]
  | c :: rest =>
    let r := splitOnChar sep rest
    if c == sep then [] :: r
    else
      match r with
      | [] => [[c]]
      | g :: gs => (c :: g) :: gs

/-- Drop one trailing carriage return from a line (CRLF tolerance). -/
def dropCR (l : List Char) : List Char :=
  if l.getLast? == some '\r' then l.dropLast else l

/-- A parsed table, column-major: each entry is a column name paired with
that column's cell values, in row order. This models the
`pandas.DataFrame` produced by `pd.read_csv`. -/
abbrev Table := List (String × List String)

/-- Model of `pd.read_csv(io.StringIO(cleaned))` restricted to the plain
CSV the script relies on: split into lines, skip blank lines, first line
is the header, cells are comma-separated; short rows are padded with
empty cells (pandas: NaN). Quoted fields, duplicate-header mangling and
dtype inference are not modelled. -/
def parseCsvText (s : String) : Table :=
  let lines := ((splitOnChar '\n' s.toList).map dropCR).filter (fun l => !l.isEmpty)
  match lines with
  | [] => []
  | h :: rows =>
    let header := (splitOnChar ',' h).map (fun cs => String.mk cs)
    let cells := rows.map (fun r => (splitOnChar ',' r).map (fun cs => String.mk cs))
    (List.range header.length).map
      (fun j => (header.getD j "", cells.map (fun row => row.getD j "")))

/-- Model of `df.empty`: true when the table has no columns or no rows. -/
def tableIsEmpty (t : Table) : Bool :=
  t.isEmpty || t.all (fun c => c.2.isEmpty)

/-- Model of `str(c).strip().lower()`, the normalization applied to each column
name when building `cols_lower`. `String.toLower` lowercases ASCII
letters, which covers the candidate names involved. -/
def normKey (c : String) : String :=
  String.mk ((pyStrip c).toList.map Char.toLower)

/-- The names of a table's columns, in header order. -/
def colNames (t : Table) : List String :=
  t.map Prod.fst

/-- Model of `cols_lower`, built as a dict
comprehension, so a later column overwrites an earlier one with the same
normalized name. Lookup of key `k` therefore returns the LAST column
whose normalized name is `k`. -/
def colsLower (cols : List String) (k : String) : Option String :=
  cols.reverse.find? (fun c => normKey c == k)

/-- Model of `pick(*names)`: return `cols_lower[n]` for the first candidate `n`
present in `cols_lower`, else `None`. -/
def pick (cols : List String) (names : List String) : Option String :=
  names.findSome? (fun n => colsLower cols n)

/-- Candidate names for the date role, in priority order. -/
def dateCands : List String := ["date", "time", "timestamp"]

/-- Candidate names for the price role, in priority order. -/
def priceCands : List String := ["price", "btc_price", "btcprice", "usd_price", "price_usd"]

/-- Candidate names for the STH metric role, in priority order. -/
def sthCands : List String :=
  ["sth_realized_price", "sthrealizedprice", "sth_realized",
   "realized_price", "realizedprice", "value"]

/-- The resolved date column, `date_col = pick("date", "time", "timestamp")`. -/
def dateCol (t : Table) : Option String := pick (colNames t) dateCands

/-- The resolved price column, `price_col = pick("price", ..., "price_usd")`. -/
def priceCol (t : Table) : Option String := pick (colNames t) priceCands

/-- The resolved metric column, `sth_col = pick("sth_realized_price", ..., "value")`. -/
def sthCol (t : Table) : Option String := pick (colNames t) sthCands

/-- Model of `df[name]`: the cell values of the first column with the given exact
name (unique names in practice). Missing column yields no cells. -/
def getCol (t : Table) (name : String) : List String :=
  ((t.find? (fun p => p.1 == name)).map Prod.snd).getD []

/-- Cell `i` of a column; out-of-range cells read as empty (pandas: NaN). -/
def cellAt (col : List String) (i : Nat) : String :=
  col.getD i ""

/-- A parsed timestamp: calendar day plus seconds within the day. Models
the `pandas.Timestamp` values produced by `pd.to_datetime`. -/
structure Timestamp where
  year : Nat
  month : Nat
  day : Nat
  secs : Nat
deriving DecidableEq, Repr

/-- Gregorian leap year. -/
def isLeap (y : Nat) : Bool :=
  (y % 4 == 0 && y % 100 != 0) || y % 400 == 0

/-- Days in a month of a given year. -/
def daysInMonth (y m : Nat) : Nat :=
  if m = 2 then (if isLeap y then 29 else 28)
  else if m = 4 ∨ m = 6 ∨ m = 9 ∨ m = 11 then 30
  else 31

/-- Validate the parsed fields and build a timestamp. The year bounds
model the `datetime64[ns]` range enforced by `pd.to_datetime` (out-of-
range years coerce to NaT); the exact boundary days of 1677/2262 are
approximated by whole years. -/
def mkTs (y m d s : Nat) : Option Timestamp :=
  if 1678 ≤ y ∧ y ≤ 2261 ∧ 1 ≤ m ∧ m ≤ 12 ∧ 1 ≤ d ∧ d ≤ daysInMonth y m ∧ s < 86400
  then some ⟨y, m, d, s⟩ else none

/-- Numeric value of a decimal digit character. -/
def digVal (c : Char) : Nat := c.toNat - 48

/-- Parse an optional time-of-day suffix `( |T)HH:MM:SS` into seconds
within the day; an empty suffix means midnight. -/
def parseTime : List Char → Option Nat
  | [] => some 0
  | sep :: h1 :: h2 :: ':' :: m1 :: m2 :: ':' :: s1 :: s2 :: [] =>
    if (sep == ' ' || sep == 'T') && h1.isDigit && h2.isDigit && m1.isDigit
        && m2.isDigit && s1.isDigit && s2.isDigit then
      let hh := 10 * digVal h1 + digVal h2
      let mm := 10 * digVal m1 + digVal m2
      let ss := 10 * digVal s1 + digVal s2
      if hh < 24 ∧ mm < 60 ∧ ss < 60 then some (hh * 3600 + mm * 60 + ss) else none
    else none
  | _ => none

/-- Model of `pd.to_datetime(x, errors="coerce")` on the cell strings the
script consumes: ISO `YYYY-MM-DD`, optionally followed by a
`( |T)HH:MM:SS` time of day; anything else (including out-of-range
fields) coerces to NaT, i.e. `none`. -/
def parseDate (s : String) : Option Timestamp :=
  match (pyStrip s).toList with
  | y1 :: y2 :: y3 :: y4 :: '-' :: m1 :: m2 :: '-' :: d1 :: d2 :: rest =>
    if y1.isDigit && y2.isDigit && y3.isDigit && y4.isDigit
        && m1.isDigit && m2.isDigit && d1.isDigit && d2.isDigit then
      match parseTime rest with
      | some secs =>
        mkTs (1000 * digVal y1 + 100 * digVal y2 + 10 * digVal y3 + digVal y4)
          (10 * digVal m1 + digVal m2) (10 * digVal d1 + digVal d2) secs
      | none => none
    else none
  | _ => none

/-- Linearization of a timestamp for comparison: strictly monotone in
(year, month, day, secs) lexicographically, given the field bounds
month ≤ 12, day ≤ 31, secs < 86400. -/
def tsKey (ts : Timestamp) : Nat :=
  ((ts.year * 13 + ts.month) * 32 + ts.day) * 86400 + ts.secs

/-- Decimal digits of a character list read as a number. -/
def digitsToNat (cs : List Char) : Nat :=
  cs.foldl (fun acc c => acc * 10 + digVal c) 0

/-- Parse an optional exponent suffix `[eE][+-]?digits`. -/
def parseExp : List Char → Option Int
  | [] => some 0
  | c :: r =>
    if c == 'e' || c == 'E' then
      let p : Bool × List Char :=
        match r with
        | '-' :: rr => (true, rr)
        | '+' :: rr => (false, rr)
        | rr => (false, rr)
      if !p.2.isEmpty && p.2.all Char.isDigit then
        some (if p.1 then -(digitsToNat p.2 : Int) else (digitsToNat p.2 : Int))
      else none
    else none

/-- Model of `pd.to_numeric(x, errors="coerce")` on a cell string: an
optionally signed decimal number with optional fraction and exponent;
failures (including the empty cell, pandas NaN) coerce to `none`.
Values are exact rationals, modelling the script's float arithmetic. -/
def parseRat (s : String) : Option ℚ :=
  let cs0 := (pyStrip s).toList
  let neg := cs0.head? == some '-'
  let cs1 :=
    match cs0 with
    | '-' :: rest => rest
    | '+' :: rest => rest
    | _ => cs0
  let intds := cs1.takeWhile Char.isDigit
  let rest1 := cs1.dropWhile Char.isDigit
  let fracds :=
    match rest1 with
    | '.' :: r => r.takeWhile Char.isDigit
    | _ => []
  let rest2 :=
    match rest1 with
    | '.' :: r => r.dropWhile Char.isDigit
    | _ => rest1
  if intds.isEmpty && fracds.isEmpty then none
  else
    match parseExp rest2 with
    | none => none
    | some e =>
      let mant : ℚ := (digitsToNat intds : ℚ) + (digitsToNat fracds : ℚ) / (10 : ℚ) ^ fracds.length
      let mag : ℚ := mant * (10 : ℚ) ^ e
      some (if neg then -mag else mag)

/-- Two zero-padded decimal digits (`%m`, `%d`). -/
def pad2 (n : Nat) : List Char :=
  [Nat.digitChar (n / 10 % 10), Nat.digitChar (n % 10)]

/-- Four zero-padded decimal digits (`%Y` for the in-range years). -/
def pad4 (n : Nat) : List Char :=
  [Nat.digitChar (n / 1000 % 10), Nat.digitChar (n / 100 % 10),
   Nat.digitChar (n / 10 % 10), Nat.digitChar (n % 10)]

/-- Model of `d.strftime("%Y-%m-%d")`: the calendar day, with any time-of-day
component discarded. -/
def fmtDate (ts : Timestamp) : String :=
  String.mk (pad4 ts.year ++ '-' :: pad2 ts.month ++ '-' :: pad2 ts.day)

/-- One output record of the JSON array. All fields other than `date`
are nullable (`None` in the JSON output). -/
structure Record where
  date : String
  sth_realized : Option ℚ
  price : Option ℚ
  ma200 : Option ℚ
deriving DecidableEq, Repr

/-- Sequence a window of optional values: `some` of the list exactly when
every entry is present. -/
def seqOpt : List (Option ℚ) → Option (List ℚ)
  | [] => some []
  | x :: xs => x.bind (fun v => (seqOpt xs).map (fun vs => v :: vs))

/-- Model of `series.rolling(window=w, min_periods=w).mean()`: entry `i`
is the mean of the `w` entries ending at `i`, defined only when at least
`w` entries exist and all of them are non-null. -/
def rollingMean (w : Nat) (xs : List (Option ℚ)) : List (Option ℚ) :=
  (List.range xs.length).map (fun i =>
    if w ≤ i + 1 then
      match seqOpt ((xs.drop (i + 1 - w)).take w) with
      | some vs => some (vs.sum / (w : ℚ))
      | none => none
    else none)

/-- The per-row data the script consumes, before the date filter: parsed
date, raw metric cell, and (when a price column resolved) raw price
cell, for each row index of the table. -/
def rawRows (t : Table) (dc sc : String) (pc : Option String) :
    List (Option Timestamp × String × Option String) :=
  let dcol := getCol t dc
  let scol := getCol t sc
  let pcol := pc.map (getCol t)
  (List.range dcol.length).map (fun i =>
    (parseDate (cellAt dcol i), cellAt scol i, pcol.map (fun col => cellAt col i)))

/-- Model of `df.dropna` on the date column: keep exactly the rows whose date
parsed. -/
def keptRows (t : Table) (dc sc : String) (pc : Option String) :
    List (Timestamp × String × Option String) :=
  (rawRows t dc sc pc).filterMap (fun r => r.1.map (fun ts => (ts, r.2)))

/-- The comparison used for `df.sort_values(date_col)`. -/
def rowLe (a b : Timestamp × String × Option String) : Prop :=
  tsKey a.1 ≤ tsKey b.1

instance : DecidableRel rowLe := fun a b => Nat.decLe (tsKey a.1) (tsKey b.1)

instance : IsTotal (Timestamp × String × Option String) rowLe :=
  ⟨fun a b => Nat.le_total (tsKey a.1) (tsKey b.1)⟩

instance : IsTrans (Timestamp × String × Option String) rowLe :=
  ⟨fun _ _ _ => Nat.le_trans⟩

/-- Model of `df.sort_values(date_col)`: ascending by parsed date. The model uses
a stable insertion sort; pandas leaves the order of exactly-equal dates
unspecified, and no claim depends on it. -/
def sortedRows (t : Table) (dc sc : String) (pc : Option String) :
    List (Timestamp × String × Option String) :=
  List.insertionSort rowLe (keptRows t dc sc pc)

/-- The coerced price column in sorted order (`pd.to_numeric` on each
cell; all null when no price column resolved). -/
def sortedPrices (t : Table) (dc sc : String) (pc : Option String) : List (Option ℚ) :=
  (sortedRows t dc sc pc).map (fun r => r.2.2.bind parseRat)

/-- The `ma200` column: the 200-row rolling mean of the price column
when a price column resolved, otherwise all null. -/
def maVals (t : Table) (dc sc : String) (pc : Option String) : List (Option ℚ) :=
  match pc with
  | some _ => rollingMean 200 (sortedPrices t dc sc pc)
  | none => (sortedRows t dc sc pc).map (fun _ => none)

/-- Build one output record from a sorted row and its `ma200` value,
as in the script's `for _, r in df.iterrows()` loop. -/
def mkRecord (r : Timestamp × String × Option String) (m : Option ℚ) : Record :=
  { date := fmtDate r.1
    sth_realized := parseRat r.2.1
    price := r.2.2.bind parseRat
    ma200 := m }

/-- The full output record sequence for a table with resolved columns. -/
def outRecords (t : Table) (dc sc : String) (pc : Option String) : List Record :=
  ((sortedRows t dc sc pc).zip (maVals t dc sc pc)).map (fun p => mkRecord p.1 p.2)

/-- Python `repr` of the observed column list, as interpolated into the
schema error message (`f"Columns found: {list(df.columns)}"`). -/
def pyReprStrList (cols : List String) : String :=
  "[" ++ String.intercalate ", " (cols.map (fun c => "\x27" ++ c ++ "\x27")) ++ "]"

/-- How an optional resolved column renders inside the f-string
(`None` when unresolved, the bare name otherwise). -/
def pickedStr : Option String → String
  | none => "None"
  | some c => c

/-- The schema error message raised when date or metric is unresolved. -/
def schemaMsg (cols : List String) (d p s : Option String) : String :=
  "Could not find required columns.\nColumns found: " ++
    (pyReprStrList cols ++
      ("\nPicked date=" ++ pickedStr d ++ ", price=" ++ pickedStr p ++
        ", sth=" ++ pickedStr s))

/-- The table-processing core of `main`, from column resolution to the
final record list: fails (raises) exactly when the date or metric role
cannot be resolved. -/
def processTable (t : Table) : Except String (List Record) :=
  match dateCol t, sthCol t with
  | some dc, some sc => Except.ok (outRecords t dc sc (priceCol t))
  | d, s => Except.error (schemaMsg (colNames t) d (priceCol t) s)

/-- The ambient effects `main` consumes: the `BMP_API_KEY` environment
variable, and the outcome (body text or exception detail) of the GET
request to each candidate URL, in order. -/
structure Env where
  apiKey : Option String
  urlResults : List (Except String String)

/-- The loop body of `_fetch_csv`: return the first successful body,
remembering the last failure; after the list is exhausted, raise
mentioning the last error (`None` if there was none). -/
def fetchLoop : List (Except String String) → Option String → Except String String
  | [], last =>
    Except.error ("Failed to fetch metric from all endpoints. Last error: " ++ pickedStr last)
  | Except.ok t :: _, _ => Except.ok t
  | Except.error e :: rest, _ => fetchLoop rest (some e)

/-- Model of `main`, as a function of the environment: the first component is the
run's outcome (the record list, or the fatal error message); the second
component is the list of writes performed on the output file, in order —
the script writes only as its final statement, so a failed run performs
no write and a successful run performs exactly one. -/
def mainRun (env : Env) : Except String (List Record) × List (List Record) :=
  match env.apiKey with
  | none =>
    (Except.error "Missing BMP_API_KEY env var. Add it in GitHub Secrets as BMP_API_KEY.", [])
  | some _ =>
    match fetchLoop env.urlResults none with
    | Except.error e => (Except.error e, [])
    | Except.ok raw =>
      let cleaned := cleanCsvText raw
      if cleaned = "" then (Except.error "Empty response from BMP API", [])
      else
        let t := parseCsvText cleaned
        if tableIsEmpty t then (Except.error "Parsed empty DataFrame from CSV", [])
        else
          match processTable t with
          | Except.error e => (Except.error e, [])
          | Except.ok out => (Except.ok out, [out])

/-! ### Helper lemmas -/

theorem toList_mk (cs : List Char) : (String.mk cs).toList = cs := rfl

theorem stripChars_of_ends {q1 q2 : Char} (body : List Char)
    (h1 : pyWs q1 = false) (h2 : pyWs q2 = false) :
    stripChars (q1 :: (body ++ [q2])) = q1 :: (body ++ [q2]) := by
  unfold stripChars
  rw [List.dropWhile_cons]
  simp only [h1, Bool.false_eq_true, if_false]
  rw [show (q1 :: (body ++ [q2])).reverse = q2 :: (body.reverse ++ [q1]) by simp]
  rw [List.dropWhile_cons]
  simp only [h2, Bool.false_eq_true, if_false]
  simp

theorem stripOuterQuotes_wrap {q : Char} (body : List Char)
    (hq : q = '"' ∨ q = '\x27') :
    stripOuterQuotes (q :: (body ++ [q])) = body := by
  have hlast : (q :: (body ++ [q])).getLast? = some q := by
    rw [show q :: (body ++ [q]) = (q :: body) ++ [q] by simp]
    exact List.getLast?_concat _
  unfold stripOuterQuotes
  rw [hlast]
  rcases hq with h | h <;> subst h <;> simp

theorem cleanCsvText_wrapped {q : Char} (body : List Char)
    (hq : q = '"' ∨ q = '\x27') :
    cleanCsvText (String.mk (q :: (body ++ [q]))) = String.mk (stripChars (unescNR body)) := by
  have hws : pyWs q = false := by rcases hq with h | h <;> subst h <;> decide
  unfold cleanCsvText
  rw [toList_mk, stripChars_of_ends body hws hws]
  simp only [List.isEmpty_cons, if_false, Bool.false_eq_true]
  rw [stripOuterQuotes_wrap body hq]

/-! ### C7 -/

/-- C7 (counterexample): the claim asserts the normalizer output is
*identical* to the unwrapped original with the escape sequences replaced
by real line breaks. For the wrapped input `"a\n"` the unwrapped,
unescaped original is `a` followed by a real newline, but the
normalizer's final strip removes that newline, so the outputs differ. -/
theorem C7_counterexample :
    cleanCsvText "\"a\\n\"" ≠ String.mk (unescNR "a\\n".toList) ∧
    cleanCsvText "\"a\\n\"" = "a" ∧
    String.mk (unescNR "a\\n".toList) = "a\n" := by decide

/-- C7 (amended): for every CSV text wrapped in a single matching outer
pair of double or single quotes with embedded literal `\n`/`\r` escape
sequences, the normalizer produces the unwrapped original with those
sequences replaced by real line breaks / carriage returns, *up to
trimming leading and trailing whitespace*; when the unescaped original
carries no leading or trailing whitespace the output is exactly
identical, and then parsing the normalized wrapped form gives the same
table as feeding the unwrapped, unescaped original directly to the
parser. -/
theorem C7_clean_normalizes {q : Char} (body : List Char)
    (hq : q = '"' ∨ q = '\x27') :
    cleanCsvText (String.mk (q :: (body ++ [q]))) = String.mk (stripChars (unescNR body)) ∧
    (stripChars (unescNR body) = unescNR body →
      cleanCsvText (String.mk (q :: (body ++ [q]))) = String.mk (unescNR body)) ∧
    (stripChars (unescNR body) = unescNR body →
      parseCsvText (cleanCsvText (String.mk (q :: (body ++ [q])))) =
        parseCsvText (String.mk (unescNR body))) := by
  refine ⟨cleanCsvText_wrapped body hq, ?_, ?_⟩ <;>
    intro h <;> rw [cleanCsvText_wrapped body hq, h]

theorem C7_clean_normalizes_witness :
    cleanCsvText (String.mk ('"' :: ("a,b\\n1,2".toList ++ ['"']))) =
      String.mk (unescNR "a,b\\n1,2".toList) :=
  (C7_clean_normalizes "a,b\\n1,2".toList (Or.inl rfl)).2.1 (by decide)

/-! ### C8 -/

/-- C8: the normalizer strips the first and last character of the
trimmed input whenever both are the same quote character, without
verifying they form a single pair spanning the whole text: `"a","b"`
loses its outer quote characters even though they belong to different
CSV fields, and an input of exactly one quote character normalizes to
the empty string, which `main` then rejects as an empty response. -/
theorem C8_naive_quote_strip :
    cleanCsvText "\"a\",\"b\"" = "a\",\"b" ∧
    cleanCsvText "\"" = "" ∧
    mainRun ⟨some "key", [Except.ok "\""]⟩ =
      (Except.error "Empty response from BMP API", []) := by
  refine ⟨by decide, by decide, ?_⟩
  rfl

/-! ### C4 -/

theorem mainRun_cases (env : Env) :
    (∃ e, mainRun env = (Except.error e, [])) ∨
      ∃ out, mainRun env = (Except.ok out, [out]) := by
  unfold mainRun
  split
  · exact Or.inl ⟨_, rfl⟩
  · split
    · exact Or.inl ⟨_, rfl⟩
    · dsimp only
      split
      · exact Or.inl ⟨_, rfl⟩
      · split
        · exact Or.inl ⟨_, rfl⟩
        · split
          · exact Or.inl ⟨_, rfl⟩
          · exact Or.inr ⟨_, rfl⟩

/-- C4: if any fatal error occurs (missing API key, all candidate URLs
failing, empty response after cleaning, zero-row parse, or unresolved
required columns), the run performs no write on the output file; on a
successful run the file is written exactly once, at the very end, with
the complete processed record sequence. -/
theorem C4_write_discipline (env : Env) :
    (∀ e, (mainRun env).1 = Except.error e → (mainRun env).2 = []) ∧
    (∀ out, (mainRun env).1 = Except.ok out → (mainRun env).2 = [out]) := by
  rcases mainRun_cases env with ⟨e', h⟩ | ⟨out', h⟩ <;>
    constructor <;> intro x hx <;> rw [h] at hx ⊢ <;> simp_all

theorem C4_write_discipline_witness :
    (mainRun ⟨none, []⟩).2 = [] ∧
      (mainRun ⟨some "key", [Except.ok "date,value\n2024-01-02,2\n2024-01-01,1"]⟩).2 =
        [[⟨"2024-01-01", some 1, none, none⟩, ⟨"2024-01-02", some 2, none, none⟩]] := by
  constructor
  · exact (C4_write_discipline ⟨none, []⟩).1
      "Missing BMP_API_KEY env var. Add it in GitHub Secrets as BMP_API_KEY." rfl
  · exact (C4_write_discipline _).2 _ rfl

/-! ### C6 -/

theorem findSome?_eq_find?_bind {α β : Type} (f : α → Option β) (l : List α) :
    l.findSome? f = (l.find? (fun a => (f a).isSome)).bind f := by
  induction l with
  | nil => rfl
  | cons a t ih =>
    rw [List.findSome?_cons, List.find?_cons]
    cases h : f a <;> simp [h, ih]

theorem find?_congrB {α : Type} (l : List α) {p q : α → Bool} (h : ∀ a, p a = q a) :
    l.find? p = l.find? q := by
  induction l with
  | nil => rfl
  | cons a t ih => rw [List.find?_cons, List.find?_cons, h a, ih]

theorem any_of_perm {l l' : List String} (h : l.Perm l') (p : String → Bool) :
    l.any p = l'.any p := by
  rw [Bool.eq_iff_iff, List.any_eq_true, List.any_eq_true]
  constructor <;> rintro ⟨x, hx, hp⟩
  · exact ⟨x, h.mem_iff.mp hx, hp⟩
  · exact ⟨x, h.mem_iff.mpr hx, hp⟩

/-- C6: column resolution is case-insensitive and, for each role,
returns the column mapped (through `cols_lower`) from the first name in
that role's fixed candidate priority list that matches some header
column after lowercasing; which candidate matches does not depend on the
order of the header columns, and `STH_Realized_Price` resolves to the
metric role identically to `sth_realized_price`. -/
theorem C6_pick_resolution :
    (∀ (cols names : List String), pick cols names =
      (names.find? (fun n => cols.any (fun c => normKey c == n))).bind (colsLower cols)) ∧
    (∀ (cols cols' names : List String), cols.Perm cols' →
      names.find? (fun n => cols.any (fun c => normKey c == n)) =
        names.find? (fun n => cols'.any (fun c => normKey c == n))) ∧
    sthCol [("Date", ["d"]), ("Price", ["p"]), ("STH_Realized_Price", ["s"])] =
      some "STH_Realized_Price" ∧
    sthCol [("Date", ["d"]), ("Price", ["p"]), ("sth_realized_price", ["s"])] =
      some "sth_realized_price" ∧
    sthCol [("STH_Realized_Price", ["s"]), ("Date", ["d"]), ("Price", ["p"])] =
      some "STH_Realized_Price" := by
  refine ⟨?_, ?_, by decide, by decide, by decide⟩
  · intro cols names
    rw [pick, findSome?_eq_find?_bind]
    congr 1
    apply find?_congrB
    intro n
    rw [Bool.eq_iff_iff, colsLower]
    simp [List.find?_isSome, List.any_eq_true]
  · intro cols cols' names h
    apply find?_congrB
    intro n
    exact any_of_perm h _

theorem C6_pick_resolution_witness :
    List.find? (fun n => List.any ["Date", "Value"] (fun c => normKey c == n)) sthCands =
      List.find? (fun n => List.any ["Value", "Date"] (fun c => normKey c == n)) sthCands :=
  C6_pick_resolution.2.1 ["Date", "Value"] ["Value", "Date"] sthCands
    (List.Perm.swap "Value" "Date" [])

/-! ### C5 -/

theorem processTable_resolved {t : Table} {dc sc : String}
    (hd : dateCol t = some dc) (hs : sthCol t = some sc) :
    processTable t = Except.ok (outRecords t dc sc (priceCol t)) := by
  unfold processTable
  rw [hd, hs]

theorem processTable_err_iff (t : Table) :
    (∃ e, processTable t = Except.error e) ↔ dateCol t = none ∨ sthCol t = none := by
  unfold processTable
  cases hd : dateCol t <;> cases hs : sthCol t <;> simp

theorem processTable_ok_elim {t : Table} {out : List Record}
    (hout : processTable t = Except.ok out) :
    ∃ dc sc, dateCol t = some dc ∧ sthCol t = some sc ∧
      out = outRecords t dc sc (priceCol t) := by
  rcases hd : dateCol t with _ | dc
  · rcases (processTable_err_iff t).mpr (Or.inl hd) with ⟨e, he⟩
    rw [hout] at he
    cases he
  · rcases hs : sthCol t with _ | sc
    · rcases (processTable_err_iff t).mpr (Or.inr hs) with ⟨e, he⟩
      rw [hout] at he
      cases he
    · refine ⟨dc, sc, rfl, rfl, ?_⟩
      have := processTable_resolved hd hs
      rw [hout] at this
      exact (Except.ok.injEq _ _).mp this.symm |>.symm ▸ rfl

theorem mem_keptRows_of_sorted {t : Table} {dc sc : String} {pc : Option String}
    {x : Timestamp × String × Option String} (hx : x ∈ sortedRows t dc sc pc) :
    x ∈ keptRows t dc sc pc :=
  (List.perm_insertionSort rowLe (keptRows t dc sc pc)).mem_iff.mp hx

theorem keptRows_spec {t : Table} {dc sc : String} {pc : Option String}
    {x : Timestamp × String × Option String} (hx : x ∈ keptRows t dc sc pc) :
    (∃ s, parseDate s = some x.1) ∧ (pc = none → x.2.2 = none) := by
  rcases List.mem_filterMap.mp hx with ⟨r, hr, hfr⟩
  rcases List.mem_map.mp hr with ⟨i, _, hgi⟩
  rcases h1 : r.1 with _ | ts
  · rw [h1] at hfr
    exact Option.noConfusion hfr
  · rw [h1] at hfr
    have hfr' : some (ts, r.2) = some x := hfr
    have hx' : x = (ts, r.2) := by
      cases hfr'
      rfl
    constructor
    · refine ⟨cellAt (getCol t dc) i, ?_⟩
      have : parseDate (cellAt (getCol t dc) i) = r.1 := by
        rw [← hgi]
      rw [this, h1, hx']
    · intro hpc
      subst hpc
      have : r.2.2 = none := by
        rw [← hgi]
        rfl
      rw [hx']
      exact this

theorem maVals_none {t : Table} {dc sc : String} {m : Option ℚ}
    (hm : m ∈ maVals t dc sc none) : m = none := by
  unfold maVals at hm
  rcases List.mem_map.mp hm with ⟨_, _, h⟩
  exact h.symm

/-- C5: the pipeline fails with a schema error if and only if the date
role or the metric role cannot be resolved from the header; on failure
the error message is exactly the schema message, which contains the full
observed column list and renders which roles did resolve; the price role
is optional, and when it is unresolved every output record's `price` and
`ma200` are null. -/
theorem C5_schema_requirements (t : Table) :
    ((∃ e, processTable t = Except.error e) ↔ (dateCol t = none ∨ sthCol t = none)) ∧
    (∀ e, processTable t = Except.error e →
      e = schemaMsg (colNames t) (dateCol t) (priceCol t) (sthCol t) ∧
      ∃ pre post, e = pre ++ (pyReprStrList (colNames t) ++ post)) ∧
    (priceCol t = none → ∀ out, processTable t = Except.ok out →
      ∀ r ∈ out, r.price = none ∧ r.ma200 = none) := by
  refine ⟨processTable_err_iff t, ?_, ?_⟩
  · intro e he
    have hmsg : e = schemaMsg (colNames t) (dateCol t) (priceCol t) (sthCol t) := by
      unfold processTable at he
      cases hd : dateCol t <;> cases hs : sthCol t <;>
        rw [hd, hs] at he <;> simp at he <;> exact he.symm
    exact ⟨hmsg, "Could not find required columns.\nColumns found: ", _, by rw [hmsg]; rfl⟩
  · intro hp out hout r hr
    rcases processTable_ok_elim hout with ⟨dc, sc, _, _, heq⟩
    rw [hp] at heq
    subst heq
    rcases List.mem_map.mp hr with ⟨p, hpmem, hpr⟩
    have hmem := List.of_mem_zip hpmem
    have hprice : p.1.2.2 = none :=
      (keptRows_spec (mem_keptRows_of_sorted hmem.1)).2 rfl
    have hma : p.2 = none := maVals_none hmem.2
    rw [← hpr]
    unfold mkRecord
    rw [hprice, hma]
    exact ⟨rfl, rfl⟩

theorem C5_schema_requirements_witness :
    (∃ e, processTable [("x", ["1"])] = Except.error e) ∧
      (∀ r ∈ [Record.mk "2024-01-01" (some 1) none none],
        r.price = none ∧ r.ma200 = none) := by
  constructor
  · exact (C5_schema_requirements [("x", ["1"])]).1.mpr (Or.inl rfl)
  · exact (C5_schema_requirements [("date", ["2024-01-01"]), ("value", ["1"])]).2.2
      rfl [Record.mk "2024-01-01" (some 1) none none] (by rfl)

/-! ### C3 -/

theorem rollingMean_length (w : Nat) (xs : List (Option ℚ)) :
    (rollingMean w xs).length = xs.length := by
  simp [rollingMean]

theorem sortedPrices_length (t : Table) (dc sc : String) (pc : Option String) :
    (sortedPrices t dc sc pc).length = (sortedRows t dc sc pc).length := by
  simp [sortedPrices]

theorem maVals_length (t : Table) (dc sc : String) (pc : Option String) :
    (maVals t dc sc pc).length = (sortedRows t dc sc pc).length := by
  cases pc <;> simp [maVals, rollingMean_length, sortedPrices_length]

theorem sortedRows_length (t : Table) (dc sc : String) (pc : Option String) :
    (sortedRows t dc sc pc).length = (keptRows t dc sc pc).length :=
  (List.perm_insertionSort rowLe (keptRows t dc sc pc)).length_eq

/-- The projection of a record that forgets the window-dependent `ma200`
field. -/
def recProj (r : Record) : String × Option ℚ × Option ℚ :=
  (r.date, r.sth_realized, r.price)

/-- The record data determined by a single kept row. -/
def rowProj (k : Timestamp × String × Option String) : String × Option ℚ × Option ℚ :=
  (fmtDate k.1, parseRat k.2.1, k.2.2.bind parseRat)

theorem outRecords_map_proj (t : Table) (dc sc : String) (pc : Option String) :
    (outRecords t dc sc pc).map recProj = (sortedRows t dc sc pc).map rowProj := by
  have hlen : (sortedRows t dc sc pc).length ≤ (maVals t dc sc pc).length := by
    rw [maVals_length]
  unfold outRecords
  rw [List.map_map]
  have h1 : (recProj ∘ fun p : (Timestamp × String × Option String) × Option ℚ =>
      mkRecord p.1 p.2) = (rowProj ∘ Prod.fst) := by
    funext p
    rfl
  rw [h1, ← List.map_map, List.map_fst_zip _ _ hlen]

theorem outRecords_length (t : Table) (dc sc : String) (pc : Option String) :
    (outRecords t dc sc pc).length = (keptRows t dc sc pc).length := by
  have h := congrArg List.length (outRecords_map_proj t dc sc pc)
  rw [List.length_map, List.length_map] at h
  rw [h, sortedRows_length]

theorem filterMap_length_eq_filter (l : List (Option Timestamp × String × Option String)) :
    (l.filterMap (fun r => r.1.map (fun ts => (ts, r.2)))).length =
      (l.filter (fun r => r.1.isSome)).length := by
  induction l with
  | nil => rfl
  | cons a tl ih => cases h : a.1 <;> simp [List.filterMap_cons, List.filter_cons, h, ih]

/-- C3: rows whose date fails to parse are silently excluded from the
output; rows whose date parses appear exactly once (so the output length
equals the count of rows with a parseable date), and a row whose metric
value fails numeric coercion still appears, with `sth_realized` null.
The correspondence is up to ordering (the sort step) and ignores the
window-dependent `ma200` field. -/
theorem C3_row_level_errors (t : Table) (dc sc : String) (pc : Option String)
    (hd : dateCol t = some dc) (hs : sthCol t = some sc) (hp : priceCol t = pc)
    (out : List Record) (hout : processTable t = Except.ok out) :
    (out.map recProj).Perm ((keptRows t dc sc pc).map rowProj) ∧
    out.length = ((rawRows t dc sc pc).filter (fun r => r.1.isSome)).length ∧
    (∀ k ∈ keptRows t dc sc pc, parseRat k.2.1 = none →
      ∃ r ∈ out, r.date = fmtDate k.1 ∧ r.sth_realized = none) := by
  have hout' : out = outRecords t dc sc pc := by
    rw [processTable_resolved hd hs, hp] at hout
    exact (Except.ok.injEq _ _).mp hout.symm
  subst hout'
  have hperm : (outRecords t dc sc pc).map recProj |>.Perm
      ((keptRows t dc sc pc).map rowProj) := by
    rw [outRecords_map_proj]
    exact (List.perm_insertionSort rowLe (keptRows t dc sc pc)).map rowProj
  refine ⟨hperm, ?_, ?_⟩
  · rw [outRecords_length, keptRows, filterMap_length_eq_filter]
  · intro k hk hnone
    have hmem : rowProj k ∈ (outRecords t dc sc pc).map recProj :=
      hperm.symm.subset (List.mem_map_of_mem rowProj hk)
    rcases List.mem_map.mp hmem with ⟨r, hr, hpr⟩
    refine ⟨r, hr, ?_, ?_⟩
    · exact congrArg Prod.fst hpr
    · have := congrArg (fun p => p.2.1) hpr
      simp only [recProj, rowProj] at this
      rw [this, hnone]

theorem C3_row_level_errors_witness :
    [Record.mk "2024-01-01" (some 38000) (some 40000) none,
      Record.mk "2024-01-02" (some 38500) (some 41000) none,
      Record.mk "2024-01-03" (some 39500) none none].length =
      ((rawRows
          [("Date", ["2024-01-01", "2024-01-02", "bad-date", "2024-01-03"]),
           ("Price", ["40000", "41000", "42000", ""]),
           ("sth_realized_price", ["38000", "38500", "39000", "39500"])]
          "Date" "sth_realized_price" (some "Price")).filter
        (fun r => r.1.isSome)).length :=
  (C3_row_level_errors
    [("Date", ["2024-01-01", "2024-01-02", "bad-date", "2024-01-03"]),
     ("Price", ["40000", "41000", "42000", ""]),
     ("sth_realized_price", ["38000", "38500", "39000", "39500"])]
    "Date" "sth_realized_price" (some "Price") rfl rfl rfl
    [Record.mk "2024-01-01" (some 38000) (some 40000) none,
      Record.mk "2024-01-02" (some 38500) (some 41000) none,
      Record.mk "2024-01-03" (some 39500) none none] (by rfl)).2.1

/-! ### C2 -/

/-- C2: when a price column is resolved, output record `i` (in
date-sorted row order) has `ma200` equal to the arithmetic mean of the
window of 200 coerced prices ending at position `i` — the record's own
price and the 199 immediately preceding ones — provided at least 200
rows exist up to `i` and every price in that window is present
(`seqOpt` succeeds); if fewer than 200 rows exist, or any window price
is missing, `ma200` is null. The record's own `price` field is the
window's last entry, position `i` of the sorted price column. -/
theorem C2_ma200_window (t : Table) (dc sc pcn : String)
    (hd : dateCol t = some dc) (hs : sthCol t = some sc) (hp : priceCol t = some pcn)
    (out : List Record) (hout : processTable t = Except.ok out)
    (i : Nat) (hi : i < out.length) :
    (∀ vs : List ℚ, 200 ≤ i + 1 →
      seqOpt (((sortedPrices t dc sc (some pcn)).drop (i + 1 - 200)).take 200) = some vs →
      out[i].ma200 = some (vs.sum / (200 : ℚ))) ∧
    (i + 1 < 200 → out[i].ma200 = none) ∧
    (seqOpt (((sortedPrices t dc sc (some pcn)).drop (i + 1 - 200)).take 200) = none →
      out[i].ma200 = none) ∧
    out[i].price = (sortedPrices t dc sc (some pcn)).getD i none := by
  have hout' : out = outRecords t dc sc (some pcn) := by
    rw [processTable_resolved hd hs, hp] at hout
    exact (Except.ok.injEq _ _).mp hout.symm
  subst hout'
  have hiz : i < ((sortedRows t dc sc (some pcn)).zip (maVals t dc sc (some pcn))).length := by
    have := hi
    unfold outRecords at this
    rw [List.length_map] at this
    exact this
  have hbounds := hiz
  rw [List.length_zip, Nat.lt_min] at hbounds
  have his : i < (sortedRows t dc sc (some pcn)).length := hbounds.1
  have him : i < (maVals t dc sc (some pcn)).length := hbounds.2
  have hps : i < (sortedPrices t dc sc (some pcn)).length := by
    rw [sortedPrices_length]
    exact his
  have hget : (outRecords t dc sc (some pcn))[i] =
      mkRecord ((sortedRows t dc sc (some pcn))[i]) ((maVals t dc sc (some pcn))[i]) := by
    unfold outRecords
    rw [List.getElem_map, List.getElem_zip]
  have hmaeq : maVals t dc sc (some pcn) =
      rollingMean 200 (sortedPrices t dc sc (some pcn)) := rfl
  have hir : i < (List.range (sortedPrices t dc sc (some pcn)).length).length := by
    rw [List.length_range]
    exact hps
  have hma : (maVals t dc sc (some pcn))[i] =
      (if 200 ≤ i + 1 then
        match seqOpt (((sortedPrices t dc sc (some pcn)).drop (i + 1 - 200)).take 200) with
        | some vs => some (vs.sum / (((200 : Nat)) : ℚ))
        | none => none
      else none) := by
    rw [List.getElem_of_eq hmaeq him]
    unfold rollingMean
    rw [List.getElem_map, List.getElem_range]
  have hprice : (outRecords t dc sc (some pcn))[i].price =
      (sortedPrices t dc sc (some pcn))[i] := by
    rw [hget]
    unfold mkRecord sortedPrices
    rw [List.getElem_map]
  refine ⟨?_, ?_, ?_, ?_⟩
  · intro vs h200 hseq
    rw [hget]
    show (maVals t dc sc (some pcn))[i] = some (vs.sum / (200 : ℚ))
    rw [hma, if_pos h200, hseq]
    norm_num
  · intro hlt
    rw [hget]
    show (maVals t dc sc (some pcn))[i] = none
    rw [hma, if_neg (by omega)]
  · intro hseq
    rw [hget]
    show (maVals t dc sc (some pcn))[i] = none
    rw [hma, hseq]
    split <;> rfl
  · rw [hprice, List.getD_eq_getElem?_getD, List.getElem?_eq_getElem hps]
    rfl

theorem C2_ma200_window_witness :
    ([Record.mk "2024-01-01" (some 1) (some 10) none,
      Record.mk "2024-01-02" (some 2) (some 11) none])[0].ma200 = none :=
  (C2_ma200_window
    [("date", ["2024-01-01", "2024-01-02"]), ("price", ["10", "11"]),
     ("value", ["1", "2"])]
    "date" "value" "price" rfl rfl rfl
    [Record.mk "2024-01-01" (some 1) (some 10) none,
      Record.mk "2024-01-02" (some 2) (some 11) none] (by rfl)
    0 (by decide)).2.1 (by decide)

/-! ### C9 -/

/-- C9: output `date` strings are formatted at calendar-day precision:
`fmtDate` depends only on the year, month and day fields, discarding any
time-of-day component, so two input rows with distinct parseable
timestamps on the same calendar day produce two output records with
identical `date` strings — shown concretely for 01:00:00 and 09:30:00 on
2024-03-05. -/
theorem C9_day_precision :
    (∀ a b : Timestamp, a.year = b.year → a.month = b.month → a.day = b.day →
      fmtDate a = fmtDate b) ∧
    processTable
        [("date", ["2024-03-05 01:00:00", "2024-03-05 09:30:00"]), ("value", ["1", "2"])] =
      Except.ok [Record.mk "2024-03-05" (some 1) none none,
        Record.mk "2024-03-05" (some 2) none none] := by
  constructor
  · intro a b hy hm hd
    unfold fmtDate
    rw [hy, hm, hd]
  · rfl

theorem C9_day_precision_witness :
    fmtDate ⟨2024, 3, 5, 3600⟩ = fmtDate ⟨2024, 3, 5, 34200⟩ :=
  C9_day_precision.1 ⟨2024, 3, 5, 3600⟩ ⟨2024, 3, 5, 34200⟩ rfl rfl rfl

/-! ### C1 -/

/-- C1 (counterexample): two rows with the same valid date both survive
the pipeline, so the output can contain duplicate `date` values —
uniqueness of `date` within the output does not hold. -/
theorem C1_counterexample :
    ∃ out, processTable [("date", ["2024-01-01", "2024-01-01"]), ("value", ["1", "2"])] =
        Except.ok out ∧ ¬ (out.map Record.date).Nodup := by
  refine ⟨[Record.mk "2024-01-01" (some 1) none none,
    Record.mk "2024-01-01" (some 2) none none], by rfl, ?_⟩
  decide

/-- The field bounds every timestamp produced by `parseDate` satisfies. -/
def TsValid (ts : Timestamp) : Prop :=
  1678 ≤ ts.year ∧ ts.year ≤ 2261 ∧ 1 ≤ ts.month ∧ ts.month ≤ 12 ∧
    1 ≤ ts.day ∧ ts.day ≤ 31 ∧ ts.secs < 86400

theorem daysInMonth_le (y m : Nat) : daysInMonth y m ≤ 31 := by
  unfold daysInMonth
  split
  · split <;> omega
  · split <;> omega

theorem mkTs_valid {y m d s : Nat} {ts : Timestamp}
    (h : mkTs y m d s = some ts) : TsValid ts := by
  unfold mkTs at h
  split at h
  · rename_i hc
    have hd31 := daysInMonth_le y m
    cases h
    exact ⟨(by omega : 1678 ≤ y), (by omega : y ≤ 2261), (by omega : 1 ≤ m),
      (by omega : m ≤ 12), (by omega : 1 ≤ d), (by omega : d ≤ 31),
      (by omega : s < 86400)⟩
  · exact Option.noConfusion h

theorem parseDate_valid {s : String} {ts : Timestamp}
    (h : parseDate s = some ts) : TsValid ts := by
  unfold parseDate at h
  split at h
  · split at h
    · split at h
      · exact mkTs_valid h
      · exact Option.noConfusion h
    · exact Option.noConfusion h
  · exact Option.noConfusion h

theorem sortedRows_valid {t : Table} {dc sc : String} {pc : Option String} :
    ∀ x ∈ sortedRows t dc sc pc, TsValid x.1 := by
  intro x hx
  rcases (keptRows_spec (mem_keptRows_of_sorted hx)).1 with ⟨s, hs⟩
  exact parseDate_valid hs

theorem tsKey_le_day_lex {a b : Timestamp} (ha : TsValid a) (hb : TsValid b)
    (h : tsKey a ≤ tsKey b) :
    a.year < b.year ∨ (a.year = b.year ∧
      (a.month < b.month ∨ (a.month = b.month ∧ a.day ≤ b.day))) := by
  obtain ⟨_, _, _, _, _, _, _⟩ := ha
  obtain ⟨_, _, _, _, _, _, _⟩ := hb
  unfold tsKey at h
  omega

theorem digitChar_lt :
    ∀ a, a < 10 → ∀ b, b < 10 → a < b → Nat.digitChar a < Nat.digitChar b := by
  decide

theorem lex_append_of_lex {r : Char → Char → Prop} {xs ys : List Char}
    (h : List.Lex r xs ys) (hl : xs.length = ys.length) (as bs : List Char) :
    List.Lex r (xs ++ as) (ys ++ bs) := by
  induction h with
  | nil => simp at hl
  | rel hab => exact List.Lex.rel hab
  | cons _ ih => exact List.Lex.cons (ih (by simpa using hl))

theorem lex_append_left {r : Char → Char → Prop} (xs : List Char) {as bs : List Char}
    (h : List.Lex r as bs) : List.Lex r (xs ++ as) (xs ++ bs) := by
  induction xs with
  | nil => exact h
  | cons c cs ih => exact List.Lex.cons ih

theorem pad2_lt {a b : Nat} (hb : b < 100) (h : a < b) :
    List.Lex (· < ·) (pad2 a) (pad2 b) := by
  have ha : a < 100 := Nat.lt_trans h hb
  unfold pad2
  rcases Nat.lt_trichotomy (a / 10) (b / 10) with hlt | heq | hgt
  · refine List.Lex.rel ?_
    rw [show a / 10 % 10 = a / 10 by omega, show b / 10 % 10 = b / 10 by omega]
    exact digitChar_lt _ (by omega) _ (by omega) hlt
  · rw [show a / 10 % 10 = b / 10 % 10 by omega]
    exact List.Lex.cons (List.Lex.rel (digitChar_lt _ (by omega) _ (by omega) (by omega)))
  · exact absurd hgt (by omega)

theorem pad2_length (a : Nat) : (pad2 a).length = 2 := rfl

theorem pad4_eq (y : Nat) : pad4 y = pad2 (y / 100) ++ pad2 (y % 100) := by
  unfold pad4 pad2
  rw [show y / 100 / 10 % 10 = y / 1000 % 10 by omega,
    show y % 100 / 10 % 10 = y / 10 % 10 by omega,
    show y % 100 % 10 = y % 10 by omega]
  rfl

theorem pad4_lt {a b : Nat} (hb : b < 10000) (h : a < b) :
    List.Lex (· < ·) (pad4 a) (pad4 b) := by
  rw [pad4_eq a, pad4_eq b]
  rcases Nat.lt_trichotomy (a / 100) (b / 100) with hlt | heq | hgt
  · exact lex_append_of_lex (pad2_lt (by omega) hlt) rfl _ _
  · rw [heq]
    exact lex_append_left _ (pad2_lt (by omega) (by omega))
  · exact absurd hgt (by omega)

theorem fmtDate_lt_of_day_lex {a b : Timestamp} (ha : TsValid a) (hb : TsValid b)
    (h : a.year < b.year ∨ (a.year = b.year ∧
      (a.month < b.month ∨ (a.month = b.month ∧ a.day < b.day)))) :
    fmtDate a < fmtDate b := by
  rw [String.lt_iff_toList_lt]
  have e1 : (fmtDate a).toList =
      pad4 a.year ++ (('-' :: pad2 a.month) ++ ('-' :: pad2 a.day)) := rfl
  have e2 : (fmtDate b).toList =
      pad4 b.year ++ (('-' :: pad2 b.month) ++ ('-' :: pad2 b.day)) := rfl
  rw [e1, e2]
  show List.Lex (· < ·) (pad4 a.year ++ (('-' :: pad2 a.month) ++ ('-' :: pad2 a.day)))
    (pad4 b.year ++ (('-' :: pad2 b.month) ++ ('-' :: pad2 b.day)))
  obtain ⟨_, hy2, _, hm2, _, hd2, _⟩ := ha
  obtain ⟨_, hy2', _, hm2', _, hd2', _⟩ := hb
  rcases h with hy | ⟨hy, hm | ⟨hm, hd⟩⟩
  · exact lex_append_of_lex (pad4_lt (by omega) hy) rfl _ _
  · rw [hy]
    refine lex_append_left _ ?_
    exact List.Lex.cons (lex_append_of_lex (pad2_lt (by omega) hm) rfl _ _)
  · rw [hy, hm]
    refine lex_append_left _ ?_
    refine List.Lex.cons (lex_append_left _ ?_)
    exact List.Lex.cons (pad2_lt (by omega) hd)

theorem fmtDate_le_of_tsKey_le {a b : Timestamp} (ha : TsValid a) (hb : TsValid b)
    (h : tsKey a ≤ tsKey b) : fmtDate a ≤ fmtDate b := by
  rcases tsKey_le_day_lex ha hb h with hy | ⟨hy, hm | ⟨hm, hdle⟩⟩
  · exact le_of_lt (fmtDate_lt_of_day_lex ha hb (Or.inl hy))
  · exact le_of_lt (fmtDate_lt_of_day_lex ha hb (Or.inr ⟨hy, Or.inl hm⟩))
  · rcases Nat.lt_or_ge a.day b.day with hd | hd
    · exact le_of_lt (fmtDate_lt_of_day_lex ha hb (Or.inr ⟨hy, Or.inr ⟨hm, hd⟩⟩))
    · have hdeq : a.day = b.day := Nat.le_antisymm hdle hd
      refine le_of_eq ?_
      unfold fmtDate
      rw [hy, hm, hdeq]

theorem fmtDate_ne_empty (ts : Timestamp) : fmtDate ts ≠ "" := by
  intro h
  have h2 := congrArg String.toList h
  simp [fmtDate, pad4] at h2

/-- C1 (amended): in every output the `date` field is a non-null,
nonempty calendar-day string, and the records are ordered ascending
(non-strictly) by `date`; uniqueness of dates does NOT hold (see the
counterexample), since rows with equal valid dates are all retained. -/
theorem C1_output_order (t : Table) (out : List Record)
    (hout : processTable t = Except.ok out) :
    (out.map Record.date).Sorted (· ≤ ·) ∧ ∀ r ∈ out, r.date ≠ "" := by
  rcases processTable_ok_elim hout with ⟨dc, sc, hd, hs, heq⟩
  subst heq
  constructor
  · have hmap : (outRecords t dc sc (priceCol t)).map Record.date =
        (sortedRows t dc sc (priceCol t)).map (fun k => fmtDate k.1) := by
      have h2 := congrArg (List.map (fun p : String × Option ℚ × Option ℚ => p.1))
        (outRecords_map_proj t dc sc (priceCol t))
      rw [List.map_map, List.map_map] at h2
      exact h2
    rw [hmap]
    refine List.pairwise_map.mpr ?_
    have hpair : (sortedRows t dc sc (priceCol t)).Pairwise rowLe :=
      List.sorted_insertionSort rowLe (keptRows t dc sc (priceCol t))
    refine hpair.imp_of_mem ?_
    intro a b hma hmb hr
    exact fmtDate_le_of_tsKey_le (sortedRows_valid a hma) (sortedRows_valid b hmb) hr
  · intro r hr
    rcases List.mem_map.mp hr with ⟨p, _, hpr⟩
    rw [← hpr]
    exact fmtDate_ne_empty p.1.1

theorem C1_output_order_witness :
    (([Record.mk "2024-01-01" (some 1) none none,
       Record.mk "2024-01-02" (some 2) none none]).map Record.date).Sorted (· ≤ ·) :=
  (C1_output_order [("date", ["2024-01-02", "2024-01-01"]), ("value", ["2", "1"])]
    [Record.mk "2024-01-01" (some 1) none none,
     Record.mk "2024-01-02" (some 2) none none] (by rfl)).1

/-! ### C10 -/

/-- A column name whose normalization is a candidate of some semantic
role — the only columns the pipeline can ever read. -/
def roleMatches (c : String) : Bool :=
  (dateCands ++ priceCands ++ sthCands).contains (normKey c)

theorem find?_filter_subpred {α : Type} (l : List α) {p m : α → Bool}
    (h : ∀ x, p x = true → m x = true) : (l.filter m).find? p = l.find? p := by
  induction l with
  | nil => rfl
  | cons a t ih =>
    rw [List.filter_cons]
    cases hm : m a
    · have hp : p a = false := by
        cases hpa : p a
        · rfl
        · rw [h a hpa] at hm
          exact Bool.noConfusion hm
      simp only [Bool.false_eq_true, if_false]
      rw [ih, List.find?_cons, hp]
    · simp only [if_true]
      rw [List.find?_cons, List.find?_cons]
      cases hpa : p a
      · exact ih
      · rfl

theorem findSome?_congr {α β : Type} {f g : α → Option β} (l : List α)
    (h : ∀ a ∈ l, f a = g a) : l.findSome? f = l.findSome? g := by
  induction l with
  | nil => rfl
  | cons a t ih =>
    rw [List.findSome?_cons, List.findSome?_cons, h a (List.mem_cons_self a t)]
    cases g a
    · exact ih (fun x hx => h x (List.mem_cons_of_mem a hx))
    · rfl

theorem colNames_filter (t : Table) :
    colNames (t.filter (fun p => roleMatches p.1)) = (colNames t).filter roleMatches := by
  unfold colNames
  rw [List.filter_map]
  rfl

theorem colsLower_invariant {t1 t2 : Table}
    (h : t1.filter (fun p => roleMatches p.1) = t2.filter (fun p => roleMatches p.1))
    {k : String} (hk : (dateCands ++ priceCands ++ sthCands).contains k = true) :
    colsLower (colNames t1) k = colsLower (colNames t2) k := by
  have hsub : ∀ (s : Table), colsLower (colNames s) k =
      colsLower (colNames (s.filter (fun p => roleMatches p.1))) k := by
    intro s
    unfold colsLower
    rw [colNames_filter, ← List.filter_reverse]
    rw [find?_filter_subpred]
    intro x hx
    have hxk : normKey x = k := eq_of_beq hx
    unfold roleMatches
    rw [hxk]
    exact hk
  rw [hsub t1, hsub t2, h]

theorem pick_invariant {t1 t2 : Table}
    (h : t1.filter (fun p => roleMatches p.1) = t2.filter (fun p => roleMatches p.1))
    {names : List String}
    (hn : ∀ n ∈ names, (dateCands ++ priceCands ++ sthCands).contains n = true) :
    pick (colNames t1) names = pick (colNames t2) names := by
  unfold pick
  exact findSome?_congr names (fun n hmem => colsLower_invariant h (hn n hmem))

theorem pick_some_matches {cols : List String} {names : List String} {nm : String}
    (hn : ∀ n ∈ names, (dateCands ++ priceCands ++ sthCands).contains n = true)
    (h : pick cols names = some nm) : roleMatches nm = true := by
  rcases List.exists_of_findSome?_eq_some h with ⟨n, hmem, hcl⟩
  have := List.find?_some hcl
  have hxk : normKey nm = n := eq_of_beq this
  unfold roleMatches
  rw [hxk]
  exact hn n hmem

theorem getCol_invariant {t1 t2 : Table}
    (h : t1.filter (fun p => roleMatches p.1) = t2.filter (fun p => roleMatches p.1))
    {nm : String} (hm : roleMatches nm = true) :
    getCol t1 nm = getCol t2 nm := by
  have hsub : ∀ (s : Table),
      s.find? (fun p => p.1 == nm) = (s.filter (fun p => roleMatches p.1)).find?
        (fun p => p.1 == nm) := by
    intro s
    rw [find?_filter_subpred]
    intro x hx
    have : x.1 = nm := eq_of_beq hx
    rw [this]
    exact hm
  unfold getCol
  rw [hsub t1, hsub t2, h]

theorem cand_mem_all (names : List String)
    (hsub : names = dateCands ∨ names = priceCands ∨ names = sthCands) :
    ∀ n ∈ names, (dateCands ++ priceCands ++ sthCands).contains n = true := by
  rcases hsub with h | h | h <;> subst h <;> decide

/-- C10: the output depends only on the values of the resolved date,
metric, and (when resolved) price columns: two tables whose
role-matching columns (name and cell values, in order) coincide — so
every additional column's normalized name matches no candidate of any
role — resolve every role identically and produce identical successful
outputs. -/
theorem C10_noninterference (t1 t2 : Table)
    (h : t1.filter (fun p => roleMatches p.1) = t2.filter (fun p => roleMatches p.1)) :
    dateCol t1 = dateCol t2 ∧ priceCol t1 = priceCol t2 ∧ sthCol t1 = sthCol t2 ∧
    ∀ out, (processTable t1 = Except.ok out ↔ processTable t2 = Except.ok out) := by
  have hdate : dateCol t1 = dateCol t2 :=
    pick_invariant h (cand_mem_all dateCands (Or.inl rfl))
  have hprice : priceCol t1 = priceCol t2 :=
    pick_invariant h (cand_mem_all priceCands (Or.inr (Or.inl rfl)))
  have hsth : sthCol t1 = sthCol t2 :=
    pick_invariant h (cand_mem_all sthCands (Or.inr (Or.inr rfl)))
  refine ⟨hdate, hprice, hsth, ?_⟩
  have hnotok : ∀ (s : Table), dateCol s = none ∨ sthCol s = none →
      ∀ out, ¬ processTable s = Except.ok out := by
    intro s hns out h'
    rcases (processTable_err_iff s).mpr hns with ⟨e, he⟩
    rw [h'] at he
    exact Except.noConfusion he
  intro out
  rcases hd1 : dateCol t1 with _ | dc
  · have hd2 : dateCol t2 = none := by rw [← hdate]; exact hd1
    exact ⟨fun h' => absurd h' (hnotok t1 (Or.inl hd1) out),
      fun h' => absurd h' (hnotok t2 (Or.inl hd2) out)⟩
  · rcases hs1 : sthCol t1 with _ | sc
    · have hs2 : sthCol t2 = none := by rw [← hsth]; exact hs1
      exact ⟨fun h' => absurd h' (hnotok t1 (Or.inr hs1) out),
        fun h' => absurd h' (hnotok t2 (Or.inr hs2) out)⟩
    · have hd2 : dateCol t2 = some dc := by rw [← hdate]; exact hd1
      have hs2 : sthCol t2 = some sc := by rw [← hsth]; exact hs1
      have hmd : roleMatches dc = true :=
        pick_some_matches (cand_mem_all dateCands (Or.inl rfl)) hd1
      have hms : roleMatches sc = true :=
        pick_some_matches (cand_mem_all sthCands (Or.inr (Or.inr rfl))) hs1
      have hraw : rawRows t1 dc sc (priceCol t1) = rawRows t2 dc sc (priceCol t1) := by
        unfold rawRows
        rw [getCol_invariant h hmd, getCol_invariant h hms]
        rcases hp1 : priceCol t1 with _ | pcn
        · rfl
        · have hmp : roleMatches pcn = true :=
            pick_some_matches (cand_mem_all priceCands (Or.inr (Or.inl rfl))) hp1
          rw [show Option.map (getCol t1) (some pcn) = some (getCol t1 pcn) from rfl,
            getCol_invariant h hmp]
          rfl
      have houteq : outRecords t1 dc sc (priceCol t1) = outRecords t2 dc sc (priceCol t1) := by
        have hkept : keptRows t1 dc sc (priceCol t1) = keptRows t2 dc sc (priceCol t1) := by
          unfold keptRows
          rw [hraw]
        have hsorted : sortedRows t1 dc sc (priceCol t1) =
            sortedRows t2 dc sc (priceCol t1) := by
          unfold sortedRows
          rw [hkept]
        unfold outRecords maVals sortedPrices
        rw [hsorted]
      rw [processTable_resolved hd1 hs1, processTable_resolved hd2 hs2, ← hprice, houteq]

theorem C10_noninterference_witness :
    dateCol [("date", ["2024-01-01"]), ("value", ["1"]), ("junk", ["x"])] =
      dateCol [("date", ["2024-01-01"]), ("value", ["1"]), ("other", ["y", "z"])] :=
  (C10_noninterference
    [("date", ["2024-01-01"]), ("value", ["1"]), ("junk", ["x"])]
    [("date", ["2024-01-01"]), ("value", ["1"]), ("other", ["y", "z"])]
    (by decide)).1

end STH
